import Mathlib

/-!
Verification of the okayv replicated key-value store against its
specification. The development shallowly embeds the replication engine of
`server/server.go` and the vector clock algebra of `server/clock.go`
(the variant providing `Clone` and `AheadOneN`), and the offline causal
validator of `tsgen/causal.go` (the variant with explicit root nodes and
the depth-limited backward search).

Modelling choices:
- Node identities form a finite type `K`. A Go `map[string]int` vector
  clock is embedded as a total function `K → Nat`; a missing entry reads
  as zero in Go, so the observable behaviour of every clock operation in
  the source depends only on this total function. Clock maps minted by
  the code never store an explicit zero entry, so Go `maps.Equal` on two
  such maps coincides with function equality.
- Go wall-clock timestamps are embedded as `Nat`; the code compares them
  only with `Timestamp.After`, i.e. strict `<`.
- UUIDs are embedded as `Nat` (only equality is used).
- Mutation is embedded as explicit state passing. Where the Go code
  mutates shared maps through an aliased copy (the merge path of
  `playLog`), the embedding updates the stored event in the log.
- Fallible handlers return their reply paired with an optional HTTP
  error, mirroring the Go `(KV, error)` signatures.
-/

namespace OkayV

variable {K : Type} [DecidableEq K] [Fintype K]

/-- VectorClock is `map[string]int` in Go; absent entries read as zero, so
it is embedded as a total function into `Nat`. -/
abbrev VectorClock (K : Type) := K → Nat

/-- Mark increments the entry of one node: `(*cc)[node] = (*cc)[node] + 1`. -/
def Mark (v : VectorClock K) (node : K) : VectorClock K :=
  fun k => if k = node then v node + 1 else v k

/-- TakeMax raises every entry of `a` that is less than the corresponding
entry of `b`: the pointwise maximum. -/
def TakeMax (a b : VectorClock K) : VectorClock K :=
  fun k => max (a k) (b k)

/-- Behind returns true if `us` is behind `them` in any way: the Go loop
ranges over the keys of `them` and reports any key where `us[key] <
them[key]`; for a key absent from `them` the test `us[key] < 0` cannot
hold, so the loop is equivalent to existential quantification over all
nodes. -/
def Behind (us them : VectorClock K) : Prop :=
  ∃ k, us k < them k

instance (us them : VectorClock K) : Decidable (Behind us them) :=
  inferInstanceAs (Decidable (∃ k, us k < them k))

/-- Before: `us` happens-before `them`; all entries at most, one strictly
less. The Go loop ranges over `zipkeys`, the union of the two key sets;
keys outside both maps compare `0 ≤ 0` without strictness, so the loop is
equivalent to quantification over all nodes. -/
def Before (us them : VectorClock K) : Prop :=
  (∀ k, us k ≤ them k) ∧ (∃ k, us k < them k)

instance (us them : VectorClock K) : Decidable (Before us them) :=
  inferInstanceAs (Decidable (_ ∧ _))

/-- After: `us` happens-after `them`. -/
def After (us them : VectorClock K) : Prop :=
  (∀ k, them k ≤ us k) ∧ (∃ k, them k < us k)

instance (us them : VectorClock K) : Decidable (After us them) :=
  inferInstanceAs (Decidable (_ ∧ _))

/-- Concurrent: no causal relation in either direction (equality included). -/
def Concurrent (us them : VectorClock K) : Prop :=
  ¬ Before us them ∧ ¬ After us them

instance (us them : VectorClock K) : Decidable (Concurrent us them) :=
  inferInstanceAs (Decidable (_ ∧ _))

/-- AheadOneN: `them` equals `us` except at exactly `n` nodes, each ahead
by one. The Go loop over `zipkeys` rejects any key whose difference is
negative or exceeds one and counts the keys with difference one,
finally comparing the count with `n`; keys outside both maps have
difference zero. -/
def AheadOneN (us them : VectorClock K) (n : Nat) : Prop :=
  (∀ k, them k = us k ∨ them k = us k + 1) ∧
  (Finset.univ.filter fun k => them k = us k + 1).card = n

instance (us them : VectorClock K) (n : Nat) : Decidable (AheadOneN us them n) :=
  inferInstanceAs (Decidable (_ ∧ _))

/-- CausalClock pairs the minting context with the set of replicas known
to hold the event. UUIDs are embedded as naturals. -/
structure CausalClock (K : Type) where
  id : Nat
  context : VectorClock K
  replicated : Finset K

/-- Column is one log event: key, value, causal clock and the wall-clock
instant used only for tie-breaking. -/
structure Column (K : Type) where
  key : String
  value : String
  clock : CausalClock K
  timestamp : Nat

/-- KV mirrors the request/response body `{key, value, causal-context}`.
A zero-valued `KV{}` has empty strings and the empty (all-zero) context. -/
structure KV (K : Type) where
  key : String
  value : String
  context : VectorClock K

/-- Zero value of KV, as produced by `return KV{}, err` in Go. -/
def emptyKV : KV K := { key := "", value := "", context := fun _ => 0 }

/-- Errors raised through `newerr` with their HTTP status codes. -/
inductive HttpError where
  | unavailable
  | notFound
  | alreadyExists
deriving DecidableEq

/-- Code maps each error to the status code passed to `newerr` in the
source: 503 for the context gate, 404 for a read miss, 400 for a
no-rewrite conflict. -/
def HttpError.Code : HttpError → Nat
  | .unavailable => 503
  | .notFound => 404
  | .alreadyExists => 400

/-- Server is the mutable replica state guarded by the lock: `maxcc`, the
append-only `events` log, the `latest` per-key index, the per-peer
`acked` cursors and the `byid` index. The indices are Go maps embedded as
total functions into `Option`/`Nat` (absent keys read as zero for
`acked`). -/
structure Server (K : Type) where
  name : K
  peers : List K
  maxcc : VectorClock K
  events : List (Column K)
  latest : String → Option Nat
  acked : K → Nat
  byid : Nat → Option Nat

/-- Zero value of a column, the Go `Column{}` returned alongside `false`
by the lookups. Indexing `s.events[idx]` in Go presumes the index is in
range; `getD` with this default makes the embedding total. -/
def emptyColumn : Column K :=
  { key := "", value := "", clock := { id := 0, context := fun _ => 0, replicated := ∅ },
    timestamp := 0 }

/-- lookup resolves a key through the `latest` index. -/
def lookup (s : Server K) (key : String) : Option (Column K) :=
  (s.latest key).map fun idx => s.events.getD idx emptyColumn

/-- lookupID resolves an event id through the `byid` index. -/
def lookupID (s : Server K) (id : Nat) : Option (Column K) :=
  (s.byid id).map fun idx => s.events.getD idx emptyColumn

/-- read services `GET /read`: refuse with 503 when `maxcc` is behind the
client context; report 404 with the request echoed back when the key has
no column; otherwise answer with the column's value and the pointwise
maximum of the column's context (cloned) and the client context. The
replica state is threaded unchanged: the handler assigns no field of the
server and `TakeMax` runs on a clone of the stored context. -/
def read (s : Server K) (inp : KV K) : Server K × KV K × Option HttpError :=
  if Behind s.maxcc inp.context then
    (s, emptyKV, some .unavailable)
  else
    match lookup s inp.key with
    | none => (s, inp, some .notFound)
    | some col =>
      (s, { key := col.key, value := col.value,
            context := TakeMax col.clock.context inp.context }, none)

/-- mintWrite is the tail of `update` that mints a new event: raise
`maxcc` with the client context, mark this replica, build a fresh clock
whose context is a clone of the new `maxcc` and whose replicated set is
this replica alone, append the column and index it. The fresh UUID and
the wall-clock instant are parameters of the embedding. -/
def mintWrite (s : Server K) (inp : KV K) (freshId : Nat) (now : Nat) :
    Server K × KV K × Option HttpError :=
  let maxcc1 := Mark (TakeMax s.maxcc inp.context) s.name
  let newclock : CausalClock K :=
    { id := freshId, context := maxcc1, replicated := {s.name} }
  let col : Column K :=
    { key := inp.key, value := inp.value, clock := newclock, timestamp := now }
  ({ s with
      maxcc := maxcc1,
      events := s.events ++ [col],
      latest := fun k => if k = inp.key then some s.events.length else s.latest k,
      byid := fun i => if i = freshId then some s.events.length else s.byid i },
   { key := inp.key, value := inp.value, context := newclock.context }, none)

/-- update services a write: refuse with 503 when `maxcc` is behind the
client context; report 400 when the key exists and rewriting is not
allowed; acknowledge without mutating the log when the existing column
already carries the same key and value, raising the client context by the
existing context; otherwise mint a new event. -/
def update (s : Server K) (inp : KV K) (allowRewrite : Bool) (freshId : Nat) (now : Nat) :
    Server K × KV K × Option HttpError :=
  if Behind s.maxcc inp.context then
    (s, emptyKV, some .unavailable)
  else
    match lookup s inp.key with
    | some existing =>
      if !allowRewrite then
        (s, { key := existing.key, value := existing.value,
              context := existing.clock.context }, some .alreadyExists)
      else if inp.key = existing.key ∧ inp.value = existing.value then
        (s, { inp with context := TakeMax inp.context existing.clock.context }, none)
      else
        mintWrite s inp freshId now
    | none => mintWrite s inp freshId now

/-- write is `update` with rewriting allowed, as wired to `PUT /write`. -/
def write (s : Server K) (inp : KV K) (freshId : Nat) (now : Nat) :
    Server K × KV K × Option HttpError :=
  update s inp true freshId now

/-- viewChange replaces the peer list with the given replicas other than
this replica itself. Forwarding to peers is network I/O outside the
state model; no other field is touched. -/
def viewChange (s : Server K) (replicas : List K) : Server K :=
  { s with peers := replicas.filter fun r => r ≠ s.name }

/-- Merge combines two causal clocks with the same id: pointwise maximum
of the contexts and union of the replicated sets. -/
def CausalClock.Merge (cc other : CausalClock K) : CausalClock K :=
  { cc with
      context := TakeMax cc.context other.context,
      replicated := cc.replicated ∪ other.replicated }

/-- Equal compares two causal clocks as written in the source:
`cc.ID == other.ID && maps.Equal(cc.Context, other.Context) &&
maps.Equal(cc.Replicated, cc.Replicated)`. The last conjunct compares the
receiver's replicated set with itself, so the replicated sets never
influence the comparison. -/
def CausalClock.Equal (cc other : CausalClock K) : Prop :=
  cc.id = other.id ∧ cc.context = other.context ∧ cc.replicated = cc.replicated

instance (cc other : CausalClock K) : Decidable (cc.Equal other) :=
  inferInstanceAs (Decidable (_ ∧ _ ∧ _))

/-- localWins holds when a column already stored for the incoming key has
a strictly later wall-clock timestamp (`existing.Timestamp.After(col.Timestamp)`). -/
def localWins (s : Server K) (col : Column K) : Prop :=
  match lookup s col.key with
  | some existing => col.timestamp < existing.timestamp
  | none => False

instance (s : Server K) (col : Column K) : Decidable (localWins s col) := by
  unfold localWins
  rcases lookup s col.key with _ | existing
  · exact inferInstanceAs (Decidable False)
  · exact inferInstanceAs (Decidable (_ < _))

/-- acceptColumn appends an incoming column: raise `maxcc` by the
incoming context, mark this replica, replace the column's context with a
clone of the new `maxcc`, add this replica to its replicated set, append
it and index it. Returns the updated server and the rewritten column. -/
def acceptColumn (s : Server K) (col : Column K) : Server K × Column K :=
  let maxcc1 := Mark (TakeMax s.maxcc col.clock.context) s.name
  let col1 : Column K :=
    { col with clock :=
        { col.clock with
            context := maxcc1,
            replicated := insert s.name col.clock.replicated } }
  ({ s with
      maxcc := maxcc1,
      events := s.events ++ [col1],
      latest := fun k => if k = col1.key then some s.events.length else s.latest k,
      byid := fun i => if i = col1.clock.id then some s.events.length else s.byid i },
   col1)

/-- playStep is the body of the `playLog` loop for one incoming column.
It returns the updated server, the columns appended to `updated` (zero or
one), and whether the loop continues (`false` for the early `return`).
Cases:
- already recorded (`byid` hit): if the clocks compare `Equal`, skip;
  otherwise merge the clocks, which in Go mutates the maps shared with
  the stored event, raise `maxcc` by the merged context and reply with
  the merged column;
- unknown and neither concurrent nor exactly one event ahead per
  replicated node: stop;
- concurrent with a stored column for the same key whose timestamp is
  strictly later: take the event count into `maxcc` but drop the payload;
- otherwise accept. -/
def playStep (s : Server K) (col : Column K) : Server K × List (Column K) × Bool :=
  match s.byid col.clock.id with
  | some idx =>
    let existing := s.events.getD idx emptyColumn
    if existing.clock.Equal col.clock then
      (s, [], true)
    else
      let merged := existing.clock.Merge col.clock
      ({ s with
          events := s.events.set idx { existing with clock := merged },
          maxcc := TakeMax s.maxcc merged.context },
       [{ existing with clock := merged }], true)
  | none =>
    let conc := Concurrent s.maxcc col.clock.context
    let happensafter := AheadOneN s.maxcc col.clock.context col.clock.replicated.card
    if ¬ (conc ∨ happensafter) then
      (s, [], false)
    else if conc ∧ localWins s col then
      ({ s with maxcc := TakeMax s.maxcc col.clock.context }, [], true)
    else
      let a := acceptColumn s col
      (a.1, [a.2], true)

/-- playLog plays a log of columns onto history in order and returns the
list of updated columns; not all columns may be played, the loop returns
early at the first column `playStep` refuses. -/
def playLog : Server K → List (Column K) → Server K × List (Column K)
  | s, [] => (s, [])
  | s, col :: rest =>
    let step := playStep s col
    if step.2.2 then
      let rec1 := playLog step.1 rest
      (rec1.1, step.2.1 ++ rec1.2)
    else
      (step.1, step.2.1)

/-- stops captures the early-return condition of `playLog`: the column is
not yet recorded and its context is neither concurrent with `maxcc` nor
exactly one event ahead per replicated node. -/
def stops (s : Server K) (col : Column K) : Prop :=
  lookupID s col.clock.id = none ∧
  ¬ (Concurrent s.maxcc col.clock.context ∨
     AheadOneN s.maxcc col.clock.context col.clock.replicated.card)

instance (s : Server K) (id : Nat) : Decidable (lookupID s id = none) :=
  decidable_of_iff (s.byid id = none) (by simp [lookupID])

instance (s : Server K) (col : Column K) : Decidable (stops s col) :=
  inferInstanceAs (Decidable (_ ∧ _))

/-- Op enumerates the state-changing entry points of a replica: a read, a
write (carrying the fresh UUID and wall-clock instant the code would
draw), the application of a gossip shipment through `playLog`, and a view
change. -/
inductive Op (K : Type) where
  | read (inp : KV K)
  | write (inp : KV K) (freshId : Nat) (now : Nat)
  | gossip (cols : List (Column K))
  | viewchange (replicas : List K)

/-- applyOp runs one operation against the replica state. -/
def applyOp (s : Server K) : Op K → Server K
  | .read inp => (OkayV.read s inp).1
  | .write inp freshId now => (OkayV.write s inp freshId now).1
  | .gossip cols => (playLog s cols).1
  | .viewchange replicas => viewChange s replicas

/-- applyOps runs a sequence of operations in order. -/
def applyOps (s : Server K) (ops : List (Op K)) : Server K :=
  ops.foldl applyOp s

end OkayV

namespace Tsgen

/-- Treenode of the happens-before forest built by the offline validator.
Go links nodes by pointers; the embedding keeps the nodes in an arena
(list) and links them by index, so pointer identity becomes index
equality. -/
structure Treenode where
  root : Bool := false
  key : String := ""
  value : String := ""
  deleted : Bool := false
  after : List Nat := []
  before : List Nat := []

/-- happenedafter reads the forward edges of a node. -/
def happenedafter (arena : List Treenode) (t : Nat) : List Nat :=
  (arena.getD t {}).after

/-- happenedbefore reads the backward edges of a node. -/
def happenedbefore (arena : List Treenode) (t : Nat) : List Nat :=
  (arena.getD t {}).before

/-- enqueue the given neighbours, skipping any already queued, exactly as
the Go loop appends to `queue` and records in `queued`. -/
def enqueue (next : List Nat) (queue queued : List Nat) : List Nat × List Nat :=
  next.foldl
    (fun acc toq =>
      if toq ∈ acc.2 then acc else (acc.1 ++ [toq], acc.2 ++ [toq]))
    (queue, queued)

/-- enqueueDepth is `enqueue` for the depth-carrying queue of
`searchhistory`; neighbours enter at depth one past the current node. -/
def enqueueDepth (next : List Nat) (queue : List (Nat × Nat)) (queued : List Nat)
    (depth : Nat) : List (Nat × Nat) × List Nat :=
  next.foldl
    (fun acc toq =>
      if toq ∈ acc.2 then acc else (acc.1 ++ [(toq, depth + 1)], acc.2 ++ [toq]))
    (queue, queued)

/-- Loop of `searchhistory`. Each node is enqueued at most once (the
`queued` set guards every enqueue), so the number of dequeues is bounded
by the number of distinct handles; the fuel passed by `searchhistory`
exceeds that bound, making the fuel case unreachable on well-formed
arenas. `fmd` is the Go `firstmatchdepth`, an int starting at -1. -/
def searchhistoryAux (arena : List Treenode) (key : String) (before : Bool) :
    Nat → List (Nat × Nat) → List Nat → List Nat → Int → List Nat
  | 0, _, _, found, _ => found
  | _ + 1, [], _, found, _ => found
  | fuel + 1, (cur, depth) :: queue, queued, found, fmd =>
    if before ∧ found.length > 0 ∧ (depth : Int) > fmd then
      searchhistoryAux arena key before fuel queue queued found fmd
    else
      let node := arena.getD cur {}
      if node.key = key ∨ node.root then
        let found1 := found ++ [cur]
        let fmd1 := if found1.length = 1 then (depth : Int) else fmd
        if before then
          searchhistoryAux arena key before fuel queue queued found1 fmd1
        else
          let q := enqueueDepth (happenedafter arena cur) queue queued depth
          searchhistoryAux arena key before fuel q.1 q.2 found1 fmd1
      else
        let next := if before then happenedbefore arena cur else happenedafter arena cur
        let q := enqueueDepth next queue queued depth
        searchhistoryAux arena key before fuel q.1 q.2 found fmd

/-- searchhistory searches from `root` for reachable nodes matching `key`
(or root markers), backward when `before` is set and forward otherwise.
Backward search never traverses past the depth of the first match and
never expands a matched node; forward search may continue past a match. -/
def searchhistory (arena : List Treenode) (key : String) (root : Nat) (before : Bool) :
    List Nat :=
  searchhistoryAux arena key before (arena.length + 1) [(root, 0)] [root] [] (-1)

/-- Loop of `relateddir`: BFS from the start node following one edge
direction, succeeding on reaching `b`. Fuel as in `searchhistoryAux`. -/
def relateddirAux (arena : List Treenode) (b : Nat) (dirAfter : Bool) :
    Nat → List Nat → List Nat → Bool
  | 0, _, _ => false
  | _ + 1, [], _ => false
  | fuel + 1, cur :: queue, queued =>
    if cur = b then true
    else
      let next := if dirAfter then happenedafter arena cur else happenedbefore arena cur
      let q := enqueue next queue queued
      relateddirAux arena b dirAfter fuel q.1 q.2

/-- relateddir reports whether `b` is reachable from `a` along the chosen
edge direction. -/
def relateddir (arena : List Treenode) (a b : Nat) (dirAfter : Bool) : Bool :=
  relateddirAux arena b dirAfter (arena.length + 1) [a] [a]

/-- related reports reachability in either direction. -/
def related (arena : List Treenode) (a b : Nat) : Bool :=
  relateddir arena a b true || relateddir arena a b false

/-- Loop of `searchunrelated`: BFS forward from a root for a node carrying
the wanted key and value that is causally unrelated to every current
cursor. -/
def searchunrelatedAux (arena : List Treenode) (k v : String) (unrelated : List Nat) :
    Nat → List Nat → List Nat → Option Nat
  | 0, _, _ => none
  | _ + 1, [], _ => none
  | fuel + 1, cur :: queue, queued =>
    let node := arena.getD cur {}
    if node.key = k ∧ node.value = v ∧ unrelated.all fun u => !related arena cur u then
      some cur
    else
      let q := enqueue (happenedafter arena cur) queue queued
      searchunrelatedAux arena k v unrelated fuel q.1 q.2

/-- searchunrelated finds a node with the given key and value reachable
forward from `root` that cannot reach, nor be reached from, any node in
`unrelated`. -/
def searchunrelated (arena : List Treenode) (k v : String) (root : Nat)
    (unrelated : List Nat) : Option Nat :=
  searchunrelatedAux arena k v unrelated (arena.length + 1) [root] [root]

/-- Action is a client-visible trace entry: `tsgen.Write` or
`tsgen.ReadResult`. The `node` field names the replica contacted; the
validator never reads it. -/
inductive Action where
  | write (client node key value : String)
  | readResult (client node key value : String) (error notFound : Bool)

/-- alookup reads a Go map embedded as an association list; `none` means
the key is absent from the map. -/
def alookup {α : Type} (l : List (String × α)) (k : String) : Option α :=
  (l.find? fun p => p.1 = k).map Prod.snd

/-- aset writes a Go map embedded as an association list, replacing the
entry when the key is present and appending it otherwise. -/
def aset {α : Type} (l : List (String × α)) (k : String) (v : α) : List (String × α) :=
  if (l.find? fun p => p.1 = k).isSome then
    l.map fun p => if p.1 = k then (k, v) else p
  else
    l ++ [(k, v)]

/-- VState is the validator's working state: the node arena, the per-client
roots and the per-client cursor sets. -/
structure VState where
  arena : List Treenode := []
  roots : List (String × Nat) := []
  cursors : List (String × List Nat) := []

/-- applyWrite handles a `Write` action: writes whose value is the magic
string "error" are skipped; a new client gets a fresh root marker node
ahead of its first write; an existing client's write hangs below every
current cursor; the client's cursors collapse to the new node. -/
def applyWrite (vs : VState) (client key value : String) : VState :=
  if value = "error" then vs
  else
    let nIdx := vs.arena.length
    match alookup vs.cursors client with
    | none =>
      let rootIdx := nIdx + 1
      let n : Treenode := { key := key, value := value, before := [rootIdx] }
      let rootNode : Treenode := { root := true, after := [nIdx] }
      { arena := vs.arena ++ [n, rootNode],
        roots := aset vs.roots client rootIdx,
        cursors := aset vs.cursors client [nIdx] }
    | some curs =>
      let n : Treenode := { key := key, value := value, before := curs }
      let arena1 := curs.foldl
        (fun ar cur =>
          let t := ar.getD cur {}
          ar.set cur { t with after := t.after ++ [nIdx] })
        vs.arena
      { arena := arena1 ++ [n],
        roots := vs.roots,
        cursors := aset vs.cursors client [nIdx] }

/-- readMatch is the candidate test of the read check: the candidate
carries the observed value, or it is a deleted node and the read was
NotFound, or it is a root marker and the read was NotFound. -/
def readMatch (arena : List Treenode) (value : String) (notFound : Bool) (c : Nat) : Bool :=
  let t := arena.getD c {}
  t.value == value || (t.deleted && notFound) || (t.root && notFound)

/-- ScanOutcome summarises the cursor loop of the read check: the read is
valid as-is, valid by fast-forwarding to a future node, or the loop
finished with the list of considered candidates. -/
inductive ScanOutcome where
  | validSame
  | validAdd (c : Nat)
  | finished (considered : List Nat)

/-- scanCursors walks the client's cursors in order: for each cursor,
search backward for a matching predecessor (valid read in prior history),
then forward for a matching successor (valid read from the future, the
cursor set gains that node); otherwise accumulate both candidate lists
into `considered` and move to the next cursor. -/
def scanCursors (arena : List Treenode) (key value : String) (notFound : Bool) :
    List Nat → List Nat → ScanOutcome
  | [], considered => .finished considered
  | cursor :: rest, considered =>
    let cands := searchhistory arena key cursor true
    if cands.any (readMatch arena value notFound) then
      .validSame
    else
      let considered1 := considered ++ cands
      let candsF := searchhistory arena key cursor false
      match candsF.find? (readMatch arena value notFound) with
      | some c => .validAdd c
      | none => scanCursors arena key value notFound rest (considered1 ++ candsF)

/-- prune drops every cursor of the client that happens-before the most
recently added cursor, keeping the last cursor itself. -/
def prune (vs : VState) (client : String) : VState :=
  match alookup vs.cursors client with
  | none => vs
  | some curs =>
    if curs.length > 0 then
      let lastCursor := curs.getLastD 0
      let kept := (curs.take (curs.length - 1)).filter
        fun cur => !relateddir vs.arena lastCursor cur false
      { vs with cursors := aset vs.cursors client (kept ++ [lastCursor]) }
    else vs

/-- searchRoots walks the roots map looking for an independent observation
of the wanted key and value. -/
def searchRoots (arena : List Treenode) (k v : String) (curs : List Nat) :
    List (String × Nat) → Option Nat
  | [] => none
  | (_, root) :: rest =>
    match searchunrelated arena k v root curs with
    | some ind => some ind
    | none => searchRoots arena k v curs rest

/-- validateGo folds the trace over the validator state, returning the
data of the first `CausalError` (client, key, value and trace index) or
`none` when the whole trace validates. Reads reported as errors are
skipped; after every validated read the client's cursors are pruned. -/
def validateGo : VState → List Action → Nat → Option (String × String × String × Nat)
  | _, [], _ => none
  | vs, .write c _ k v :: rest, i => validateGo (applyWrite vs c k v) rest (i + 1)
  | vs, .readResult c _ k v er nf :: rest, i =>
    if er then validateGo vs rest (i + 1)
    else
      let curs := (alookup vs.cursors c).getD []
      match scanCursors vs.arena k v nf curs [] with
      | .validSame => validateGo (prune vs c) rest (i + 1)
      | .validAdd cnode =>
        let vs1 := { vs with cursors := aset vs.cursors c (curs ++ [cnode]) }
        validateGo (prune vs1 c) rest (i + 1)
      | .finished considered =>
        if nf ∧ considered = [] then validateGo (prune vs c) rest (i + 1)
        else
          match searchRoots vs.arena k v curs vs.roots with
          | some ind =>
            let vs1 := { vs with cursors := aset vs.cursors c (curs ++ [ind]) }
            validateGo (prune vs1 c) rest (i + 1)
          | none => some (c, k, v, i)

/-- ValidateCausality validates an ordered trace of writes and read
results, returning the first causal error found or `none`. -/
def ValidateCausality (actions : List Action) : Option (String × String × String × Nat) :=
  validateGo {} actions 0

end Tsgen

namespace OkayV

variable {K : Type} [DecidableEq K] [Fintype K]

/-- Concrete vector clock over two nodes, deployed in the tie-break and
dependency-gap scenarios below. -/
def vcPair (a b : Nat) : VectorClock (Fin 2) :=
  fun k => if k = 0 then a else b

/-- Stored column of the tie-break scenario: a local write of key "x" on
node 0 at wall-clock instant 5. -/
def localColX : Column (Fin 2) :=
  { key := "x", value := "l",
    clock := { id := 0, context := vcPair 1 0, replicated := {0} },
    timestamp := 5 }

/-- Replica state of the tie-break scenario: node 0 holding `localColX`. -/
def sTie : Server (Fin 2) :=
  { name := 0, peers := [],
    maxcc := vcPair 1 0,
    events := [localColX],
    latest := fun k => if k = "x" then some 0 else none,
    acked := fun _ => 0,
    byid := fun i => if i = 0 then some 0 else none }

/-- Incoming gossip column of the tie-break scenario: an unknown write of
key "x" minted concurrently on node 1, with the same wall-clock instant 5
as the stored column. -/
def colRemote : Column (Fin 2) :=
  { key := "x", value := "r",
    clock := { id := 1, context := vcPair 0 1, replicated := {1} },
    timestamp := 5 }

/-- Stored column of the replication-metadata scenario (same content as
`localColX`). -/
def storedMeta : Column (Fin 2) :=
  { key := "x", value := "l",
    clock := { id := 0, context := vcPair 1 0, replicated := {0} },
    timestamp := 5 }

/-- Replica state of the replication-metadata scenario: node 0 holding
`storedMeta`. -/
def sMeta : Server (Fin 2) :=
  { name := 0, peers := [],
    maxcc := vcPair 1 0,
    events := [storedMeta],
    latest := fun k => if k = "x" then some 0 else none,
    acked := fun _ => 0,
    byid := fun i => if i = 0 then some 0 else none }

/-- Incoming gossip column of the replication-metadata scenario: the same
event as `storedMeta` whose replicated set has grown to both nodes. -/
def colMeta : Column (Fin 2) :=
  { key := "x", value := "l",
    clock := { id := 0, context := vcPair 1 0, replicated := {0, 1} },
    timestamp := 5 }

/-- Fresh replica of the dependency-gap scenario, node 0 with empty state. -/
def sGap : Server (Fin 2) :=
  { name := 0, peers := [],
    maxcc := fun _ => 0,
    events := [],
    latest := fun _ => none,
    acked := fun _ => 0,
    byid := fun _ => none }

/-- First shipped column of the dependency-gap scenario: acceptable on the
empty replica (one event ahead, minted on node 1). -/
def colOkGap : Column (Fin 2) :=
  { key := "k1", value := "v1",
    clock := { id := 10, context := vcPair 0 1, replicated := {1} },
    timestamp := 1 }

/-- Second shipped column of the dependency-gap scenario: its context is
strictly ahead of the replica's clock by more than one event, so it is
neither concurrent nor one ahead. -/
def colGap : Column (Fin 2) :=
  { key := "k2", value := "v2",
    clock := { id := 11, context := vcPair 2 3, replicated := {1} },
    timestamp := 2 }

/-- Empty replica over a single node, for the read witnesses. -/
def sEmpty1 : Server (Fin 1) :=
  { name := 0, peers := [],
    maxcc := fun _ => 0,
    events := [],
    latest := fun _ => none,
    acked := fun _ => 0,
    byid := fun _ => none }

/-- Stored column of the successful-read witness. -/
def colStored1 : Column (Fin 1) :=
  { key := "x", value := "v",
    clock := { id := 0, context := fun _ => 1, replicated := {0} },
    timestamp := 3 }

/-- Single-node replica holding `colStored1`. -/
def sStore1 : Server (Fin 1) :=
  { name := 0, peers := [],
    maxcc := fun _ => 1,
    events := [colStored1],
    latest := fun k => if k = "x" then some 0 else none,
    acked := fun _ => 0,
    byid := fun i => if i = 0 then some 0 else none }

/-- Read request for key "x" with the empty client context. -/
def kvReadX : KV (Fin 1) :=
  { key := "x", value := "", context := fun _ => 0 }

/-- Read request for the absent key "y" with the empty client context. -/
def kvReadY : KV (Fin 1) :=
  { key := "y", value := "", context := fun _ => 0 }

/-- Vector clock witnessing the irreflexivity of `Behind`. -/
def vOne : VectorClock (Fin 1) :=
  fun _ => 1

end OkayV

namespace Tsgen

/-- Time-reversal trace of the validator scenario: alice writes x=1, then
x=2, reads x=2, then reads x=1. -/
def c8trace : List Action :=
  [ .write "alice" "a" "x" "1",
    .write "alice" "a" "x" "2",
    .readResult "alice" "a" "x" "2" false false,
    .readResult "alice" "a" "x" "1" false false ]

end Tsgen

namespace OkayV

variable {K : Type} [DecidableEq K] [Fintype K]

theorem read_state_eq (s : Server K) (inp : KV K) : (read s inp).1 = s := by
  unfold read
  split
  · rfl
  · split <;> rfl

theorem read_unavailable_iff (s : Server K) (inp : KV K) :
    (read s inp).2.2 = some HttpError.unavailable ↔ Behind s.maxcc inp.context := by
  unfold read
  by_cases hb : Behind s.maxcc inp.context
  · simp [hb]
  · rcases hl : lookup s inp.key with _ | col <;> simp [hl, hb]

theorem update_unavailable_iff (s : Server K) (inp : KV K) (ar : Bool) (fid now : Nat) :
    (update s inp ar fid now).2.2 = some HttpError.unavailable ↔
      Behind s.maxcc inp.context := by
  unfold update
  by_cases hb : Behind s.maxcc inp.context
  · simp [hb]
  · rcases hl : lookup s inp.key with _ | ex <;>
      simp [hl, hb, mintWrite] <;> split_ifs <;> simp [mintWrite]

theorem le_Mark (v : VectorClock K) (n k : K) : v k ≤ Mark v n k := by
  unfold Mark
  split
  · rename_i h
    rw [h]
    exact Nat.le_succ _
  · exact le_refl _

theorem le_TakeMax_left (v w : VectorClock K) (k : K) : v k ≤ TakeMax v w k :=
  le_max_left _ _

theorem le_TakeMax_Mark (v w : VectorClock K) (n k : K) :
    v k ≤ Mark (TakeMax v w) n k :=
  le_trans (le_max_left _ _) (le_Mark (TakeMax v w) n k)

theorem update_maxcc_mono (s : Server K) (inp : KV K) (ar : Bool) (fid now : Nat) (k : K) :
    s.maxcc k ≤ (update s inp ar fid now).1.maxcc k := by
  unfold update
  by_cases hb : Behind s.maxcc inp.context
  · simp [hb]
  · rcases hl : lookup s inp.key with _ | ex <;> simp [hl, hb, mintWrite] <;>
      try split_ifs
    all_goals
      first
        | exact le_refl _
        | exact le_TakeMax_Mark _ _ _ _
        | simp [mintWrite, le_TakeMax_Mark]

theorem playStep_maxcc_mono (s : Server K) (col : Column K) (k : K) :
    s.maxcc k ≤ (playStep s col).1.maxcc k := by
  unfold playStep
  rcases hb : s.byid col.clock.id with _ | idx <;> simp [hb] <;> split_ifs <;>
    first
      | exact le_refl _
      | exact le_TakeMax_left _ _ _
      | (simp only [acceptColumn]; exact le_TakeMax_Mark _ _ _ _)

theorem playLog_maxcc_mono (cols : List (Column K)) (s : Server K) (k : K) :
    s.maxcc k ≤ (playLog s cols).1.maxcc k := by
  induction cols generalizing s with
  | nil => exact le_refl _
  | cons col rest ih =>
    show s.maxcc k ≤ (playLog s (col :: rest)).1.maxcc k
    unfold playLog
    by_cases hc : (playStep s col).2.2 <;> simp only [hc, if_true, if_false]
    · exact le_trans (playStep_maxcc_mono s col k) (ih (playStep s col).1)
    · exact playStep_maxcc_mono s col k

theorem applyOp_maxcc_mono (s : Server K) (op : Op K) (k : K) :
    s.maxcc k ≤ (applyOp s op).maxcc k := by
  cases op with
  | read inp => rw [applyOp, read_state_eq]
  | write inp fid now => exact update_maxcc_mono s inp true fid now k
  | gossip cols => exact playLog_maxcc_mono cols s k
  | viewchange replicas => rw [applyOp, viewChange]

theorem playStep_of_stops (s : Server K) (col : Column K) (h : stops s col) :
    playStep s col = (s, [], false) := by
  obtain ⟨h1, h2⟩ := h
  have hb : s.byid col.clock.id = none := by
    simpa [lookupID] using h1
  unfold playStep
  rw [hb]
  simp [h2]

theorem playStep_cont_of_not_stops (s : Server K) (col : Column K) (h : ¬ stops s col) :
    (playStep s col).2.2 = true := by
  unfold playStep
  rcases hb : s.byid col.clock.id with _ | idx
  · have h1 : lookupID s col.clock.id = none := by simp [lookupID, hb]
    by_cases hc : Concurrent s.maxcc col.clock.context ∨
        AheadOneN s.maxcc col.clock.context col.clock.replicated.card
    · simp [hc]
      split_ifs <;> rfl
    · exact absurd ⟨h1, hc⟩ h
  · simp
    split_ifs <;> rfl

theorem playLog_cons_cont (s : Server K) (col : Column K) (rest : List (Column K))
    (h : (playStep s col).2.2 = true) :
    playLog s (col :: rest) =
      ((playLog (playStep s col).1 rest).1,
       (playStep s col).2.1 ++ (playLog (playStep s col).1 rest).2) := by
  conv_lhs => rw [playLog]
  simp [h]

theorem C3_aux (pre : List (Column K)) :
    ∀ (s : Server K) (col : Column K) (rest : List (Column K)),
    (∀ i (h : i < pre.length), ¬ stops (playLog s (pre.take i)).1 (pre.get ⟨i, h⟩)) →
    stops (playLog s pre).1 col →
    playLog s (pre ++ col :: rest) = playLog s pre := by
  induction pre with
  | nil =>
    intro s col rest _ hstop
    have hs : stops s col := by simpa [playLog] using hstop
    have hstep := playStep_of_stops s col hs
    show playLog s (col :: rest) = playLog s []
    unfold playLog
    rw [hstep]
    simp
  | cons p ps ih =>
    intro s col rest hpre hstop
    have h0 : ¬ stops s p := by
      have h := hpre 0 (by simp)
      simpa [playLog] using h
    have hcont := playStep_cont_of_not_stops s p h0
    have hshift : ∀ (l : List (Column K)),
        (playLog s (p :: l)).1 = (playLog (playStep s p).1 l).1 := by
      intro l
      rw [playLog_cons_cont s p l hcont]
    have hpre1 : ∀ i (h : i < ps.length),
        ¬ stops (playLog (playStep s p).1 (ps.take i)).1 (ps.get ⟨i, h⟩) := by
      intro i h
      have h2 := hpre (i + 1) (by simpa using Nat.succ_lt_succ h)
      rw [List.take_succ_cons] at h2
      rw [hshift (ps.take i)] at h2
      simpa using h2
    have hstop1 : stops (playLog (playStep s p).1 ps).1 col := by
      rw [hshift ps] at hstop
      exact hstop
    have hmain := ih (playStep s p).1 col rest hpre1 hstop1
    rw [List.cons_append, playLog_cons_cont s p _ hcont, playLog_cons_cont s p ps hcont,
      hmain]

theorem playStep_drop (s : Server K) (col ex : Column K)
    (hid : lookupID s col.clock.id = none)
    (hconc : Concurrent s.maxcc col.clock.context)
    (hl : lookup s col.key = some ex)
    (hts : col.timestamp < ex.timestamp) :
    playStep s col = ({ s with maxcc := TakeMax s.maxcc col.clock.context }, [], true) := by
  have hb : s.byid col.clock.id = none := by simpa [lookupID] using hid
  have hw : localWins s col := by simp [localWins, hl, hts]
  unfold playStep
  rw [hb]
  simp [hconc, hw]

theorem playStep_accept_of_tie (s : Server K) (col ex : Column K)
    (hid : lookupID s col.clock.id = none)
    (hconc : Concurrent s.maxcc col.clock.context)
    (hl : lookup s col.key = some ex)
    (hts : ex.timestamp ≤ col.timestamp) :
    playStep s col = ((acceptColumn s col).1, [(acceptColumn s col).2], true) := by
  have hb : s.byid col.clock.id = none := by simpa [lookupID] using hid
  have hw : ¬ localWins s col := by
    simp [localWins, hl]
    omega
  unfold playStep
  rw [hb]
  simp [hconc, hw]

theorem read_serviced_of_not_behind (s : Server K) (inp : KV K)
    (hb : ¬ Behind s.maxcc inp.context) :
    (read s inp).2.2 = none ∨ (read s inp).2.2 = some HttpError.notFound := by
  unfold read
  rcases hl : lookup s inp.key with _ | col <;> simp [hl, hb]

/-- C1: for every replica state and every client request, `read` and
`write` are refused with Unavailable (ContextUnsatisfied, status 503)
exactly when `Behind maxcc client_ctx` holds; when it does not hold the
request is serviced, the only possible error on a read being NotFound. -/
theorem C1_unavailable_iff_behind (s : Server K) (inp : KV K) (fid now : Nat) :
    ((read s inp).2.2 = some HttpError.unavailable ↔ Behind s.maxcc inp.context) ∧
    ((write s inp fid now).2.2 = some HttpError.unavailable ↔ Behind s.maxcc inp.context) ∧
    (¬ Behind s.maxcc inp.context →
      (read s inp).2.2 = none ∨ (read s inp).2.2 = some HttpError.notFound) ∧
    HttpError.unavailable.Code = 503 :=
  ⟨read_unavailable_iff s inp, update_unavailable_iff s inp true fid now,
   read_serviced_of_not_behind s inp, rfl⟩

/-- Witness for C1 at a concrete single-node replica and request. -/
theorem C1_witness :
    ¬ Behind sEmpty1.maxcc kvReadY.context ∧
    ((read sEmpty1 kvReadY).2.2 = none ∨
     (read sEmpty1 kvReadY).2.2 = some HttpError.notFound) :=
  ⟨by decide, (C1_unavailable_iff_behind sEmpty1 kvReadY 0 0).2.2.1 (by decide)⟩

/-- C5: a successful read — context satisfied and key present — returns
the value of the column indexed by `latest[key]` together with a context
mapping every node to the maximum of the column's context entry and the
client's context entry. -/
theorem C5_read_hit (s : Server K) (inp : KV K) (col : Column K)
    (hb : ¬ Behind s.maxcc inp.context) (hl : lookup s inp.key = some col) :
    (read s inp).2.2 = none ∧ (read s inp).2.1.value = col.value ∧
    ∀ k, (read s inp).2.1.context k = max (col.clock.context k) (inp.context k) := by
  simp [read, hb, hl, TakeMax]

/-- Witness for C5 at a concrete single-node replica holding one column. -/
theorem C5_witness :
    ¬ Behind sStore1.maxcc kvReadX.context ∧
    lookup sStore1 kvReadX.key = some colStored1 ∧
    ((read sStore1 kvReadX).2.2 = none ∧
     (read sStore1 kvReadX).2.1.value = colStored1.value ∧
     ∀ k, (read sStore1 kvReadX).2.1.context k =
       max (colStored1.clock.context k) (kvReadX.context k)) :=
  ⟨by decide, rfl, C5_read_hit sStore1 kvReadX colStored1 (by decide) rfl⟩

/-- C7: a read of an absent key with a satisfied context returns NotFound
together with the client's request — and in particular the client's own
context — echoed back unchanged. -/
theorem C7_read_miss (s : Server K) (inp : KV K)
    (hb : ¬ Behind s.maxcc inp.context) (hl : lookup s inp.key = none) :
    (read s inp).2.2 = some HttpError.notFound ∧ (read s inp).2.1 = inp := by
  simp [read, hb, hl]

/-- Witness for C7 at a concrete single-node replica and absent key. -/
theorem C7_witness :
    ¬ Behind sEmpty1.maxcc kvReadY.context ∧ lookup sEmpty1 kvReadY.key = none ∧
    ((read sEmpty1 kvReadY).2.2 = some HttpError.notFound ∧
     (read sEmpty1 kvReadY).2.1 = kvReadY) :=
  ⟨by decide, rfl, C7_read_miss sEmpty1 kvReadY (by decide) rfl⟩

/-- C9: `Behind` is irreflexive — it demands a strictly smaller entry, so
`Behind V V` never holds (the comment on the Go source claiming equal
clocks would still be Behind notwithstanding) — and consequently a read
or write whose client context equals the replica's `maxcc` pointwise is
never refused as Unavailable. -/
theorem C9_behind_irrefl :
    (∀ V : VectorClock K, ¬ Behind V V) ∧
    ∀ (s : Server K) (inp : KV K) (fid now : Nat),
      inp.context = s.maxcc →
        (read s inp).2.2 ≠ some HttpError.unavailable ∧
        (write s inp fid now).2.2 ≠ some HttpError.unavailable := by
  constructor
  · rintro V ⟨k, hk⟩
    exact lt_irrefl _ hk
  · intro s inp fid now hctx
    have hb : ¬ Behind s.maxcc inp.context := by
      rw [hctx]
      rintro ⟨k, hk⟩
      exact lt_irrefl _ hk
    refine ⟨fun h => hb ?_, fun h => hb ?_⟩
    · exact (read_unavailable_iff s inp).1 h
    · exact (update_unavailable_iff s inp true fid now).1 h

/-- Witness for C9: `Behind` fails on a concrete clock compared with
itself, and a concrete read whose context equals `maxcc` is serviced. -/
theorem C9_witness :
    ¬ Behind vOne vOne ∧
    (read sEmpty1 kvReadY).2.2 ≠ some HttpError.unavailable :=
  ⟨C9_behind_irrefl.1 vOne, (C9_behind_irrefl.2 sEmpty1 kvReadY 0 0 rfl).1⟩

/-- C10: `read` never modifies replica state — in all its outcomes the
events log, the latest index, the id index, the acked cursors and maxcc
are unchanged; the returned context is computed on a clone of the stored
context. -/
theorem C10_read_frame (s : Server K) (inp : KV K) :
    (read s inp).1.events = s.events ∧ (read s inp).1.latest = s.latest ∧
    (read s inp).1.byid = s.byid ∧ (read s inp).1.acked = s.acked ∧
    (read s inp).1.maxcc = s.maxcc := by
  rw [read_state_eq]
  exact ⟨rfl, rfl, rfl, rfl, rfl⟩

/-- C6: P1, monotonic clocks — over any sequence of operations on a
replica (read, write, play_log applied via gossip, view change), `maxcc`
is non-decreasing under pointwise order. -/
theorem C6_maxcc_monotone (ops : List (Op K)) (s : Server K) (k : K) :
    s.maxcc k ≤ (applyOps s ops).maxcc k := by
  induction ops generalizing s with
  | nil => exact le_refl _
  | cons op rest ih =>
    calc s.maxcc k ≤ (applyOp s op).maxcc k := applyOp_maxcc_mono s op k
      _ ≤ (applyOps (applyOp s op) rest).maxcc k := ih (applyOp s op)
      _ = (applyOps s (op :: rest)).maxcc k := rfl

/-- C3: play_log processes columns in order and stops at the first
unknown column whose context is neither concurrent with maxcc nor ahead
by exactly one event per replicated node; that column and every later
column are left unapplied and the returned state and replies are exactly
those accumulated before that point. -/
theorem C3_stops_at_gap (pre : List (Column K)) (s : Server K) (col : Column K)
    (rest : List (Column K))
    (hpre : ∀ i (h : i < pre.length),
      ¬ stops (playLog s (pre.take i)).1 (pre.get ⟨i, h⟩))
    (hstop : stops (playLog s pre).1 col) :
    playLog s (pre ++ col :: rest) = playLog s pre :=
  C3_aux pre s col rest hpre hstop

/-- Witness for C3: a fresh replica accepts one shipped column and stops
at a second column lying beyond the dependency gap, dropping the tail. -/
theorem C3_witness :
    (∀ i (h : i < [colOkGap].length),
      ¬ stops (playLog sGap ([colOkGap].take i)).1 ([colOkGap].get ⟨i, h⟩)) ∧
    stops (playLog sGap [colOkGap]).1 colGap ∧
    playLog sGap ([colOkGap] ++ colGap :: [colGap]) = playLog sGap [colOkGap] :=
  ⟨by decide, by decide,
   C3_stops_at_gap [colOkGap] sGap colGap [colGap] (by decide) (by decide)⟩

/-- C2 counterexample: with equal wall-clock timestamps on an unknown,
concurrent incoming column whose key already has a local column, the
incoming value is appended to the log (the log grows), contradicting the
claim that the local write wins ties and the incoming value is dropped. -/
theorem C2_counterexample :
    lookupID sTie colRemote.clock.id = none ∧
    Concurrent sTie.maxcc colRemote.clock.context ∧
    lookup sTie colRemote.key = some localColX ∧
    localColX.timestamp = colRemote.timestamp ∧
    (playLog sTie [colRemote]).1.events.length = sTie.events.length + 1 :=
  ⟨rfl, by decide, rfl, rfl, rfl⟩

/-- C2 (amended): when an unknown incoming column is concurrent with
maxcc and a column for the same key exists locally, the incoming value is
dropped — events and latest untouched by it, maxcc still raised by
take_max with the incoming context, nothing replied for it — exactly when
the local column's wall-clock timestamp is STRICTLY later than the
incoming one; on equal timestamps the incoming value is accepted, so the
remote write wins the tie. -/
theorem C2_tiebreak (s : Server K) (col ex : Column K) (rest : List (Column K))
    (hid : lookupID s col.clock.id = none)
    (hconc : Concurrent s.maxcc col.clock.context)
    (hl : lookup s col.key = some ex) :
    (col.timestamp < ex.timestamp →
       playLog s (col :: rest) =
         playLog { s with maxcc := TakeMax s.maxcc col.clock.context } rest) ∧
    (ex.timestamp ≤ col.timestamp →
       playLog s (col :: rest) =
         ((playLog (acceptColumn s col).1 rest).1,
          (acceptColumn s col).2 :: (playLog (acceptColumn s col).1 rest).2)) := by
  constructor
  · intro hts
    have hstep := playStep_drop s col ex hid hconc hl hts
    rw [playLog_cons_cont s col rest (by rw [hstep]), hstep]
    simp
  · intro hts
    have hstep := playStep_accept_of_tie s col ex hid hconc hl hts
    rw [playLog_cons_cont s col rest (by rw [hstep]), hstep]
    simp

/-- Witness for the amended C2 at the concrete tie: equal timestamps, the
incoming column is accepted and replied. -/
theorem C2_witness :
    lookupID sTie colRemote.clock.id = none ∧
    Concurrent sTie.maxcc colRemote.clock.context ∧
    lookup sTie colRemote.key = some localColX ∧
    localColX.timestamp ≤ colRemote.timestamp ∧
    playLog sTie [colRemote] =
      ((playLog (acceptColumn sTie colRemote).1 []).1,
       (acceptColumn sTie colRemote).2 ::
         (playLog (acceptColumn sTie colRemote).1 []).2) :=
  ⟨rfl, by decide, rfl, by decide,
   (C2_tiebreak sTie colRemote localColX [] rfl (by decide) rfl).2 (by decide)⟩

/-- C4: the code evaluated at the failing input. A shipped column whose
clock differs from the stored clock only in a grown replicated set
compares `Equal` — the source compares the stored replicated set with
itself — so play_log ignores it: the state is unchanged and nothing is
replied, where the claim (and the spec) require a merge that is included
in the reply. -/
theorem C4_replicated_growth_ignored :
    colMeta.clock.id = storedMeta.clock.id ∧
    colMeta.clock.context = storedMeta.clock.context ∧
    colMeta.clock.replicated ≠ storedMeta.clock.replicated ∧
    CausalClock.Equal storedMeta.clock colMeta.clock ∧
    playLog sMeta [colMeta] = (sMeta, []) :=
  ⟨rfl, rfl, by decide, by decide, rfl⟩

/-- C8: the validator rejects the time-reversal trace — alice writes x=1,
writes x=2, reads x=2, then reads x=1 — returning a causal error; the
backward search stops at the depth of the first match (the x=2 node), so
the earlier x=1 write cannot justify the final read. -/
theorem C8_time_reversal_invalid :
    (Tsgen.ValidateCausality Tsgen.c8trace).isSome = true := by
  decide

end OkayV
